import Mathlib

/-!
Verification development for the `cli` library: a command-line argument
binder and subcommand dispatcher.  The repository contains several
near-duplicate historical revisions of the same library; definitions below
are shallow embeddings of the revision each claim cites.  The embedding
namespaces are:

* `Cli` — shared error values (`error.go`) and event traces;
* `Cli.V2` — the `Arguments` model with the `SliceValue` interface
  (`src/unnamed/part_002`), used by the callback binder
  (`src/unnamed/part_004`) and the `Command` tree (`src/unnamed/part_005`);
* `Cli.V1` — the earlier `Arguments` model with the `slice` flag
  (`src/arguments.go`).

Bound storage is modelled by an explicit state type `σ` threaded through
each `Set` call; a `Value`'s `Set(string) error` becomes
`σ → String → σ × Option GoErr`, and a `SliceValue`'s `Set([]string) error`
becomes `σ → List String → σ × Option GoErr`.  Parsing also emits a trace
of the `Set` calls it performed, so "no storage is touched" and
"consumed in one call" are provable statements about the trace.
-/

namespace Cli

/-- Model of Go `error` values as produced by `errors.New` (`base`) and by
`fmt.Errorf("%w ...", inner)` (`wrap inner note`).  Two `errors.New` calls
with the same text produce distinct Go values, but the library only ever
compares the sentinel errors it reaches by name, so structural identity is
faithful for every comparison the code performs. -/
inductive GoErr where
  | base (msg : String)
  | wrap (inner : GoErr) (note : String)
  deriving DecidableEq, Repr

/-- `ErrUsage = errors.New("Invalid Usage")` (error.go). -/
def errUsage : GoErr := .base "Invalid Usage"

/-- `ErrUnknownCommand = fmt.Errorf("%w Unknown command", ErrUsage)`. -/
def errUnknownCommand : GoErr := .wrap errUsage "Unknown command"

/-- `ErrRequiredCommand = fmt.Errorf("%w A command is required", ErrUsage)`. -/
def errRequiredCommand : GoErr := .wrap errUsage "A command is required"

/-- `ErrNoCommandFunc = fmt.Errorf("%w No callback function was provided", ErrUsage)`. -/
def errNoCommandFunc : GoErr := .wrap errUsage "No callback function was provided"

/-- `errParse = errors.New("parse error")`. -/
def errParse : GoErr := .base "parse error"

/-- `errRange = errors.New("value out of range")`. -/
def errRange : GoErr := .base "value out of range"

/-- `errNumArguments = fmt.Errorf("%w not enough arguments given", ErrUsage)`. -/
def errNumArguments : GoErr := .wrap errUsage "not enough arguments given"

/-- `errors.Is` restricted to the `%w` unwrap chain, which is the only
wrapping this library builds. -/
def errorsIs : GoErr → GoErr → Bool
  | e@(.base _), t => e = t
  | e@(.wrap inner _), t => e = t || errorsIs inner t

/-- `errors.Is` lifted to a possibly-nil error. -/
def errorsIsOpt : Option GoErr → GoErr → Bool
  | none, _ => false
  | some e, t => errorsIs e t

/-- Model of the error value an underlying `strconv` conversion reports:
a `*strconv.NumError` carrying `ErrSyntax` or `ErrRange`, a `*NumError`
carrying some other error, or a non-`NumError` error. -/
inductive RawErr where
  | numSyntax
  | numRange
  | numOther (e : GoErr)
  | plain (e : GoErr)
  deriving DecidableEq, Repr

/-- `numError` (error.go / arguments.go): normalize a `strconv` failure —
syntax class becomes `errParse`, range class becomes `errRange`, anything
else passes through unchanged. -/
def numError : RawErr → GoErr
  | .numSyntax => errParse
  | .numRange => errRange
  | .numOther e => e
  | .plain e => e

/-- One `Set` call performed during `Arguments.Parse`: `setV i tok` is a
scalar `Value.Set(tok)` for the argument at index `i`, `setS i toks` is a
`SliceValue.Set(toks)`. -/
inductive Ev where
  | setV (i : Nat) (tok : String)
  | setS (i : Nat) (toks : List String)
  deriving DecidableEq, Repr

end Cli

namespace Cli.V2

/-- An entry of `Arguments.args` (part_002): its `value` field holds either
a `Value` or a `SliceValue` (the only two things `Var`/`VarSlice` insert);
descriptions are irrelevant to parsing and omitted. -/
inductive ArgVal (σ : Type) where
  | value (set : σ → String → σ × Option GoErr)
  | slice (set : σ → List String → σ × Option GoErr)

/-- `Arguments` (part_002): the most recent stored input plus the ordered
argument list. -/
structure Arguments (σ : Type) where
  input : List String := []
  args : List (ArgVal σ) := []

/-- `Args()` (part_002): returns the stored `input` field unchanged. -/
def Args {σ : Type} (a : Arguments σ) : List String := a.input

/-- Result of the parse loop: final storage, error, trace of `Set` calls,
and whether the loop ran off the end of the argument list (as opposed to
returning early from the slice branch or an element failure). -/
structure LoopOut (σ : Type) where
  state : σ
  err : Option GoErr
  evs : List Ev
  ranOff : Bool

/-- The `for i, arg := range args.args` loop of `Parse` (part_002).
`i` is the index of the current argument, which is also the index of the
token it consumes; a plain `Value` consumes `input[i]` and aborts on error,
a `SliceValue` consumes `input[i:]` in one call and returns immediately.
Inside the loop `i < input.length` always holds (the caller checked
`len(input) >= len(args.args)`), so the `getD` default is never read. -/
def parseLoop {σ : Type} (input : List String) :
    List (ArgVal σ) → Nat → σ → LoopOut σ
  | [], _, s => ⟨s, none, [], true⟩
  | .value f :: rest, i, s =>
    let r := f s (input.getD i "")
    match r.2 with
    | some e => ⟨r.1, some e, [.setV i (input.getD i "")], false⟩
    | none =>
      let t := parseLoop input rest (i + 1) r.1
      ⟨t.state, t.err, .setV i (input.getD i "") :: t.evs, t.ranOff⟩
  | .slice g :: _, i, s =>
    let r := g s (input.drop i)
    ⟨r.1, r.2, [.setS i (input.drop i)], false⟩

/-- Result of `Parse`: the updated `Arguments` record (its stored input),
the final storage, the error, and the trace. -/
structure ParseOut (σ : Type) where
  arguments : Arguments σ
  state : σ
  err : Option GoErr
  evs : List Ev

/-- `Parse` (part_002): fail with `errNumArguments` when
`len(input) < len(args.args)` (before touching anything); otherwise reset
the stored input to `[]`, run the loop, and — only when the loop completes
without an early return — store `input[len(args.args):]`. -/
def Parse {σ : Type} (a : Arguments σ) (input : List String) (s : σ) :
    ParseOut σ :=
  if input.length < a.args.length then ⟨a, s, some errNumArguments, []⟩
  else
    let t := parseLoop input a.args 0 s
    ⟨{ a with input := if t.ranOff then input.drop a.args.length else [] },
      t.state, t.err, t.evs⟩

/-- The `SliceValue.Set` calls recorded in a trace, with their index and
token list. -/
def sliceCalls (evs : List Ev) : List (Nat × List String) :=
  evs.filterMap fun e =>
    match e with
    | .setS i ts => some (i, ts)
    | .setV _ _ => none

end Cli.V2

namespace Cli.V1

/-- An entry of `Arguments.args` (arguments.go): a `Value` (always a plain
scalar `Set(string)` capability in this revision) plus the `slice` flag
set by `VarSlice`. -/
structure Arg (σ : Type) where
  set : σ → String → σ × Option GoErr
  slice : Bool

/-- `Arguments` (arguments.go). -/
structure Arguments (σ : Type) where
  input : List String := []
  args : List (Arg σ) := []

/-- `Args()` (arguments.go): `return args.input[len(args.args):]`.  Go
panics when the start index of the slice expression exceeds the slice's
capacity; `none` models that panic.  On every state the library can reach,
the stored input is either the initial empty slice (capacity 0) or a list
at least as long as `args` (`Parse` stores it only after its length
check), so comparing against the length is exact. -/
def Args {σ : Type} (a : Arguments σ) : Option (List String) :=
  if a.args.length ≤ a.input.length then some (a.input.drop a.args.length)
  else none

/-- The inner `for ; i < len(args.input); i++` loop of `Parse`
(arguments.go): a slice-flagged argument consumes every remaining token
one `Set` call at a time, aborting on the first error. -/
def sliceInner {σ : Type} (set : σ → String → σ × Option GoErr) :
    List String → σ → σ × Option GoErr
  | [], s => (s, none)
  | t :: ts, s =>
    let r := set s t
    match r.2 with
    | some e => (r.1, some e)
    | none => sliceInner set ts r.1

/-- The `for i, arg := range args.args` loop of `Parse` (arguments.go).
A slice-flagged argument runs `sliceInner` over `input[i:]` and the
function returns; a plain argument consumes `input[i]` and aborts on
error. -/
def parseLoop {σ : Type} (input : List String) :
    List (Arg σ) → Nat → σ → σ × Option GoErr
  | [], _, s => (s, none)
  | arg :: rest, i, s =>
    if arg.slice then sliceInner arg.set (input.drop i) s
    else
      let r := arg.set s (input.getD i "")
      match r.2 with
      | some e => (r.1, some e)
      | none => parseLoop input rest (i + 1) r.1

/-- Result of `Parse` (arguments.go): the updated `Arguments` record
(its stored input), the final storage and the error. -/
structure ParseOut (σ : Type) where
  arguments : Arguments σ
  state : σ
  err : Option GoErr

/-- `Parse` (arguments.go): fail with `errNumArguments` when
`len(input) < len(args.args)`; otherwise store the input (before the
loop runs, so it is stored even when an element parse later fails) and
run the loop. -/
def Parse {σ : Type} (a : Arguments σ) (input : List String) (s : σ) :
    ParseOut σ :=
  if input.length < a.args.length then ⟨a, s, some errNumArguments⟩
  else
    let r := parseLoop input a.args 0 s
    ⟨{ a with input := input }, r.1, r.2⟩

end Cli.V1

namespace Cli

/-! ### Built-in scalar `Value.Set` methods (part_002 lines 21-128)

Each built-in `Set` converts via the `strconv`/`time` standard library
(an external collaborator, modelled as a conversion function
`String → α × Option RawErr` passed explicitly), then *unconditionally*
stores the conversion's result value and returns the (classified) error:
`v, err := strconv.ParseX(s); if err != nil { err = ... }; *p = v;
return err`. -/

/-- `strconv.ParseBool`: accepts exactly the listed literals; any other
text yields the zero value `false` together with a syntax-class error. -/
def goParseBool (s : String) : Bool × Option RawErr :=
  if s ∈ ["1", "t", "T", "TRUE", "true", "True"] then (true, none)
  else if s ∈ ["0", "f", "F", "FALSE", "false", "False"] then (false, none)
  else (false, some .numSyntax)

/-- `boolValue.Set`: parse, collapse any failure to `errParse`, store the
conversion result, return the error. -/
def boolValueSet (s : String) (_old : Bool) : Bool × Option GoErr :=
  let r := goParseBool s
  (r.1, if r.2.isSome then some errParse else none)

/-- The shared shape of `intValue.Set`, `int64Value.Set`, `uintValue.Set`,
`uint64Value.Set` and `float64Value.Set`: convert via the given `strconv`
function, normalize the failure through `numError`, store the conversion's
result value, return the error. -/
def numValueSet {α : Type} (conv : String → α × Option RawErr)
    (s : String) (_old : α) : α × Option GoErr :=
  let r := conv s
  (r.1, r.2.map numError)

/-- The shared shape of `durationValue.Set` (and the error handling of
`boolValue.Set`): convert via the given function, collapse any failure to
`errParse`, store the conversion's result value, return the error. -/
def parseErrValueSet {α : Type} (conv : String → α × Option RawErr)
    (s : String) (_old : α) : α × Option GoErr :=
  let r := conv s
  (r.1, if r.2.isSome then some errParse else none)

/-- `stringValue.Set`: always succeeds and stores the text verbatim. -/
def stringValueSet (s : String) (_old : String) : String × Option GoErr :=
  (s, none)

end Cli

namespace Cli.V2

/-- No built-in or well-behaved `Set` ever reports the unexported
`errNumArguments` sentinel; the length check is the only source of it. -/
def noNumArgErr {σ : Type} : ArgVal σ → Prop
  | .value f => ∀ s t, (f s t).2 ≠ some errNumArguments
  | .slice g => ∀ s ts, (g s ts).2 ≠ some errNumArguments

theorem parseLoop_err_ne_numArguments {σ : Type} (input : List String)
    (args : List (ArgVal σ)) (i : Nat) (s : σ)
    (hno : ∀ g ∈ args, noNumArgErr g) :
    (parseLoop input args i s).err ≠ some errNumArguments := by
  induction args generalizing i s with
  | nil => simp [parseLoop]
  | cons a rest ih =>
    have hhead := hno a (by simp)
    have htail : ∀ g ∈ rest, noNumArgErr g := fun g hg => hno g (by simp [hg])
    cases a with
    | value f =>
      rcases hr : f s (input[i]?.getD "") with ⟨s', e⟩
      cases e with
      | none =>
        simpa [parseLoop, List.getD, hr] using ih (i + 1) s' htail
      | some e' =>
        have hne := hhead s (input[i]?.getD "")
        rw [hr] at hne
        simp only [ne_eq] at hne
        simpa [parseLoop, List.getD, hr] using hne
    | slice g =>
      rcases hr : g s (input.drop i) with ⟨s', e⟩
      have hne := hhead s (input.drop i)
      rw [hr] at hne
      simpa [parseLoop, hr] using hne

/-- A plain-`Value`-only prefix that completes without error composes
with the remainder of the loop. -/
theorem parseLoop_append {σ : Type} (input : List String)
    (pre : List (σ → String → σ × Option GoErr)) (rest : List (ArgVal σ))
    (i : Nat) (s : σ)
    (h : (parseLoop input (pre.map ArgVal.value) i s).err = none) :
    parseLoop input (pre.map ArgVal.value ++ rest) i s =
      (let p := parseLoop input (pre.map ArgVal.value) i s
       let t := parseLoop input rest (i + pre.length) p.state
       ⟨t.state, t.err, p.evs ++ t.evs, t.ranOff⟩) := by
  induction pre generalizing i s with
  | nil => simp [parseLoop]
  | cons f fs ih =>
    rcases hr : f s (input[i]?.getD "") with ⟨s', e⟩
    cases e with
    | some e' => simp [parseLoop, List.getD, hr] at h
    | none =>
      have h' : (parseLoop input (fs.map ArgVal.value) (i + 1) s').err = none := by
        simpa [parseLoop, List.getD, hr] using h
      have harith : i + (fs.length + 1) = i + 1 + fs.length := by omega
      simp [parseLoop, List.getD, hr, ih (i + 1) s' h', harith]

/-- When a loop over plain `Value`s followed by one final `SliceValue`
finishes without error, its trace is the plain calls followed by exactly
one `SliceValue.Set` call receiving the entire tail `input[i+len(pre):]`,
and nothing after it. -/
theorem parseLoop_slice_tail {σ : Type} (input : List String)
    (pre : List (σ → String → σ × Option GoErr))
    (g : σ → List String → σ × Option GoErr) (i : Nat) (s : σ)
    (h : (parseLoop input (pre.map ArgVal.value ++ [ArgVal.slice g]) i s).err = none) :
    ∃ evs, (parseLoop input (pre.map ArgVal.value ++ [ArgVal.slice g]) i s).evs
        = evs ++ [Ev.setS (i + pre.length) (input.drop (i + pre.length))]
      ∧ sliceCalls evs = [] := by
  induction pre generalizing i s with
  | nil =>
    rcases hr : g s (input.drop i) with ⟨s', e⟩
    exact ⟨[], by simp [parseLoop, hr], by simp [sliceCalls]⟩
  | cons f fs ih =>
    rcases hr : f s (input[i]?.getD "") with ⟨s', e⟩
    cases e with
    | some e' => simp [parseLoop, List.getD, hr] at h
    | none =>
      have h' : (parseLoop input (fs.map ArgVal.value ++ [ArgVal.slice g]) (i + 1) s').err
          = none := by simpa [parseLoop, List.getD, hr] using h
      obtain ⟨evs, heq, hsc⟩ := ih (i + 1) s' h'
      refine ⟨Ev.setV i (input[i]?.getD "") :: evs, ?_, ?_⟩
      · have harith : i + 1 + fs.length = i + (fs.length + 1) := by omega
        rw [harith] at heq
        simp [parseLoop, List.getD, hr, heq]
      · simpa [sliceCalls] using hsc

end Cli.V2

namespace Cli.V2

/-- Number of non-slice (plain `Value`) arguments in an argument list. -/
def plainCount {σ : Type} (args : List (ArgVal σ)) : Nat :=
  (args.filter fun g =>
    match g with
    | .value _ => true
    | .slice _ => false).length

/-- A plain `Value` `Set` used in concrete examples: appends the token it
received to the storage (a log of all received tokens) and succeeds. -/
def logSet : List String → String → List String × Option GoErr :=
  fun s t => (s ++ [t], none)

/-- A `SliceValue` `Set` used in concrete examples: appends all received
tokens to the storage and succeeds. -/
def logSetSlice : List String → List String → List String × Option GoErr :=
  fun s ts => (s ++ ts, none)

/-- A `Value` `Set` used in concrete examples: records the token it
received but reports `errParse`. -/
def failSet : List String → String → List String × Option GoErr :=
  fun s t => (s ++ [t], some errParse)

/-- The example `Value` argument. -/
def logValue : ArgVal (List String) := .value logSet

/-- The example `SliceValue` argument. -/
def logSlice : ArgVal (List String) := .slice logSetSlice

/-- C1 (amended): `Parse(tokens)` fails with `NotEnoughArguments` exactly
when the number of tokens is less than the **total** number of registered
arguments — a `SliceValue` argument counts like a plain one, so a trailing
`SliceValue` requires at least one token — and on that failure nothing is
touched: the `Arguments` record, the bound storage and the trace of `Set`
calls are all unchanged.  The hypothesis that no registered `Set` reports
the unexported `errNumArguments` sentinel holds for every built-in value
and every value a client package can construct. -/
theorem parse_notEnoughArguments_iff_total_count {σ : Type}
    (a : Arguments σ) (input : List String) (s : σ)
    (hno : ∀ g ∈ a.args, noNumArgErr g) :
    ((Parse a input s).err = some errNumArguments ↔ input.length < a.args.length)
    ∧ (input.length < a.args.length →
        Parse a input s = ⟨a, s, some errNumArguments, []⟩) := by
  by_cases hlt : input.length < a.args.length
  · simp [Parse, hlt]
  · have hne := parseLoop_err_ne_numArguments input a.args 0 s hno
    refine ⟨?_, fun h => absurd h hlt⟩
    simp only [Parse, if_neg hlt]
    exact ⟨fun h => absurd h hne, fun h => absurd h hlt⟩

/-- C1 witness: a single plain argument and no tokens yields
`errNumArguments`. -/
theorem parse_notEnoughArguments_iff_total_count_witness :
    (Parse { input := [], args := [logValue] } [] ([] : List String)).err
      = some errNumArguments :=
  (parse_notEnoughArguments_iff_total_count { input := [], args := [logValue] } [] []
    (by simp [noNumArgErr, logValue, logSet])).1.mpr (by decide)

/-- C1 counterexample: with one plain argument followed by a `SliceValue`
argument and one token, the token count (1) is **not** below the number of
non-slice arguments (1) — so the claim predicts success — yet `Parse`
fails with `errNumArguments`, because the length check counts the slice
argument as well. -/
theorem parse_notEnoughArguments_claim_counterexample :
    (Parse { input := [], args := [logValue, logSlice] } ["a"]
        ([] : List String)).err = some errNumArguments
      ∧ ¬ (["a"].length < plainCount [logValue, logSlice]) :=
  ⟨rfl, by simp [plainCount, logValue, logSlice]⟩

/-- C2 (confirmed): for an argument list whose final argument is a
`SliceValue` (preceded only by plain `Value`s) and any token list `Parse`
accepts, the `SliceValue` receives the entire remaining tail
`input[len(pre):]` in a single `Set` call — the only `SliceValue.Set` call
of the parse — and that call is the last thing the parse does. -/
theorem parse_sliceValue_consumes_entire_tail {σ : Type}
    (a : Arguments σ) (pre : List (σ → String → σ × Option GoErr))
    (g : σ → List String → σ × Option GoErr) (input : List String) (s : σ)
    (hargs : a.args = pre.map ArgVal.value ++ [ArgVal.slice g])
    (hok : (Parse a input s).err = none) :
    ∃ evs, (Parse a input s).evs
        = evs ++ [Ev.setS pre.length (input.drop pre.length)]
      ∧ sliceCalls evs = []
      ∧ sliceCalls (Parse a input s).evs
        = [(pre.length, input.drop pre.length)] := by
  by_cases hlt : input.length < a.args.length
  · simp [Parse, hlt] at hok
  · have hloop : (parseLoop input a.args 0 s).err = none := by
      simpa [Parse, hlt] using hok
    rw [hargs] at hloop
    obtain ⟨evs, heq, hsc⟩ := parseLoop_slice_tail input pre g 0 s hloop
    rw [Nat.zero_add] at heq
    have hevs : (Parse a input s).evs
        = evs ++ [Ev.setS pre.length (input.drop pre.length)] := by
      simp only [Parse, if_neg hlt]
      rw [hargs]
      exact heq
    refine ⟨evs, hevs, hsc, ?_⟩
    rw [hevs]
    simp only [sliceCalls, List.filterMap_append] at hsc ⊢
    simp [hsc]

/-- C2 witness: one plain argument, a trailing slice argument, and three
tokens — the slice receives the two-token tail in one call. -/
theorem parse_sliceValue_consumes_entire_tail_witness :
    ∃ evs, (Parse { input := [], args := [logValue, logSlice] } ["x", "y", "z"]
          ([] : List String)).evs = evs ++ [Ev.setS 1 ["y", "z"]]
      ∧ sliceCalls evs = []
      ∧ sliceCalls (Parse { input := [], args := [logValue, logSlice] }
          ["x", "y", "z"] ([] : List String)).evs = [(1, ["y", "z"])] := by
  have h := parse_sliceValue_consumes_entire_tail
    { input := [], args := [logValue, logSlice] } [logSet] logSetSlice
    ["x", "y", "z"] [] rfl (by decide)
  simpa using h

/-- C6 (confirmed): when the element parse of the argument at index
`len(pre)` fails — every earlier argument being a plain `Value` whose
`Set` succeeded — `Parse` aborts immediately with exactly that failure:
the trace stops at the failing call, and the returned storage is the state
`s₂` produced by the failing `Set` applied to `s₁`, the state holding
every earlier argument's newly parsed value (no rollback to pre-call
values). -/
theorem parse_element_failure_aborts_without_rollback {σ : Type}
    (a : Arguments σ) (pre : List (σ → String → σ × Option GoErr))
    (f : σ → String → σ × Option GoErr) (post : List (ArgVal σ))
    (input : List String) (s s₁ s₂ : σ) (evs : List Ev) (e : GoErr)
    (hargs : a.args = pre.map ArgVal.value ++ ArgVal.value f :: post)
    (hlen : a.args.length ≤ input.length)
    (hpre : parseLoop input (pre.map ArgVal.value) 0 s = ⟨s₁, none, evs, true⟩)
    (hf : f s₁ (input[pre.length]?.getD "") = (s₂, some e)) :
    Parse a input s =
      ⟨{ a with input := [] }, s₂, some e,
        evs ++ [Ev.setV pre.length (input[pre.length]?.getD "")]⟩ := by
  have hnlt : ¬ input.length < a.args.length := by omega
  have happ := parseLoop_append input pre (ArgVal.value f :: post) 0 s
    (by rw [hpre])
  rw [hpre] at happ
  have hstep : parseLoop input (ArgVal.value f :: post) pre.length s₁
      = ⟨s₂, some e, [Ev.setV pre.length (input[pre.length]?.getD "")], false⟩ := by
    simp [parseLoop, List.getD, hf]
  simp only [Nat.zero_add, hstep] at happ
  have hlen2 : pre.length + (post.length + 1) ≤ input.length := by
    rw [hargs] at hlen
    simpa using hlen
  simp [Parse, hnlt, hargs, happ]
  omega

/-- C6 witness: two plain arguments where the second fails with
`errParse` — the first argument's storage keeps the freshly parsed token
`"a"`, the failing call still recorded `"b"`, and the parse stopped. -/
theorem parse_element_failure_aborts_without_rollback_witness :
    Parse { input := [], args := [ArgVal.value logSet, ArgVal.value failSet] }
        ["a", "b"] ([] : List String)
      = ⟨{ input := [], args := [ArgVal.value logSet, ArgVal.value failSet] },
          ["a", "b"], some errParse, [Ev.setV 0 "a", Ev.setV 1 "b"]⟩ := by
  have h := parse_element_failure_aborts_without_rollback
    { input := [], args := [ArgVal.value logSet, ArgVal.value failSet] }
    [logSet] failSet [] ["a", "b"] [] ["a"] ["a", "b"] [Ev.setV 0 "a"] errParse
    rfl (by decide) rfl rfl
  simpa using h

end Cli.V2

namespace Cli

/-- C9 (confirmed): every built-in scalar `Set` stores the underlying
conversion's result value unconditionally, so an error return and a
storage mutation are not mutually exclusive.  Concretely: `boolValue.Set`
on a failing text stores `false` (the zero value `strconv.ParseBool`
returns on its only — syntax-class — failure); the numeric `Set`s
(`intValue`, `int64Value`, `uintValue`, `uint64Value`, `float64Value`)
store the `strconv` conversion's result even when it reports an error,
and when `strconv` reports a syntax failure together with its documented
zero result value that zero value is stored alongside `errParse`;
`durationValue.Set` likewise stores the conversion's result on failure;
`stringValue.Set` never fails, making the claim vacuous for it. -/
theorem builtin_set_stores_conversion_result_on_error :
    (∀ s old, (boolValueSet s old).2 ≠ none →
        (boolValueSet s old).1 = (goParseBool s).1 ∧ (boolValueSet s old).1 = false)
    ∧ (∀ (α : Type) (conv : String → α × Option RawErr) (s : String) (old : α),
        (numValueSet conv s old).2 ≠ none →
          (numValueSet conv s old).1 = (conv s).1)
    ∧ (∀ (α : Type) (conv : String → α × Option RawErr) (s : String) (old z : α),
        conv s = (z, some RawErr.numSyntax) →
          numValueSet conv s old = (z, some errParse))
    ∧ (∀ (α : Type) (conv : String → α × Option RawErr) (s : String) (old : α),
        (parseErrValueSet conv s old).2 ≠ none →
          (parseErrValueSet conv s old).1 = (conv s).1)
    ∧ (∀ s old, (stringValueSet s old).2 = none) := by
  refine ⟨?_, ?_, ?_, ?_, ?_⟩
  · intro s old h
    rcases hps : goParseBool s with ⟨v, e⟩
    have hv : v = false ∨ e = none := by
      unfold goParseBool at hps
      split_ifs at hps <;> simp_all
    rcases hv with hv | hv
    · simp [boolValueSet, hps, hv]
    · simp [boolValueSet, hps, hv] at h
  · intro α conv s old _
    simp [numValueSet]
  · intro α conv s old z hconv
    simp [numValueSet, hconv, numError]
  · intro α conv s old _
    simp [parseErrValueSet]
  · intro s old
    simp [stringValueSet]

/-- C9 witness: `boolValue.Set("zz")` over prior storage `true` reports
`errParse` yet overwrites the storage with `false`; an integer conversion
that reports a syntax failure with zero result stores `0` alongside
`errParse`. -/
theorem builtin_set_stores_conversion_result_on_error_witness :
    ((boolValueSet "zz" true).1 = false ∧ (boolValueSet "zz" true).2 = some errParse)
    ∧ numValueSet (fun _ => ((0 : Int), some RawErr.numSyntax)) "zz" (5 : Int)
        = (0, some errParse) :=
  ⟨⟨(builtin_set_stores_conversion_result_on_error.1 "zz" true (by decide)).2,
    by decide⟩,
   builtin_set_stores_conversion_result_on_error.2.2.1 Int
     (fun _ => ((0 : Int), some RawErr.numSyntax)) "zz" 5 0 rfl⟩

end Cli

namespace Cli.V1

/-- A concrete V1 argument backed by `boolValue`: storage is one `Bool`. -/
def boolArgV1 : Arg Bool := ⟨fun old t => boolValueSet t old, false⟩

/-- A fresh V1 `Arguments` with the single `bool` argument registered. -/
def boolArgsV1 : Arguments Bool := { input := [], args := [boolArgV1] }

/-- C10 (amended): on a fresh `Arguments` — the stored input is still the
initial empty slice — with at least one registered argument, `Args()`
slices the stored input past its end (a runtime panic, modelled as
`none`), and every `Parse` call that fails the length check preserves
that state; but any `Parse` call that passes the length check, even one
whose element parse then fails, stores the input and makes `Args()`
total. -/
theorem args_panics_only_before_length_passing_parse {σ : Type}
    (a : Arguments σ) (h1 : a.input = []) (h2 : 0 < a.args.length) :
    Args a = none
    ∧ (∀ input (s : σ), input.length < a.args.length →
        (Parse a input s).arguments = a
          ∧ Args (Parse a input s).arguments = none)
    ∧ (∀ input (s : σ), a.args.length ≤ input.length →
        Args (Parse a input s).arguments = some (input.drop a.args.length)) := by
  have hA : Args a = none := by
    simp only [Args, h1]
    rw [if_neg]
    simp only [List.length_nil]
    omega
  refine ⟨hA, ?_, ?_⟩
  · intro input s hlt
    constructor
    · simp [Parse, hlt]
    · simp [Parse, hlt, hA]
  · intro input s hle
    have hnlt : ¬ input.length < a.args.length := by omega
    simp [Parse, hnlt, Args, hle]

/-- C10 witness: the fresh single-argument instance panics in `Args()`,
still panics after a `Parse` given no tokens, and is total after a
`Parse` given one token. -/
theorem args_panics_only_before_length_passing_parse_witness :
    Args boolArgsV1 = none
    ∧ Args (Parse boolArgsV1 [] false).arguments = none
    ∧ Args (Parse boolArgsV1 ["true"] false).arguments = some [] := by
  have h := args_panics_only_before_length_passing_parse boolArgsV1 rfl (by decide)
  exact ⟨h.1, (h.2.1 [] false (by decide)).2, h.2.2 ["true"] false (by decide)⟩

/-- C10 counterexample: a `Parse` call that passed the length check but
failed on its element parse has never succeeded, yet afterwards `Args()`
is total — it returns `some []` instead of slicing past the end — so
"`Args()` is well-defined only after a successful `Parse`" is too strong:
passing the length check is what makes `Args()` safe. -/
theorem args_partiality_claim_counterexample :
    (Parse boolArgsV1 ["zzz"] false).err = some errParse
    ∧ Args (Parse boolArgsV1 ["zzz"] false).arguments = some [] := by
  constructor <;> decide

end Cli.V1

namespace Cli.CB

/-- `Provided callback is not a function` (part_004 `callback.process`). -/
def errNotAFunction : GoErr := .base "Provided callback is not a function"

/-- The latched state of a `callback` binder (part_004): the permanent
construction error, the `Arguments` instance it populated, and the
reflective invocation of the wrapped function — marshalling the bound
variables in parameter order and extracting a trailing error result —
abstracted as a function of the parsed storage. -/
structure Callback (σ : Type) where
  inputErr : Option GoErr
  arguments : V2.Arguments σ
  call : σ → Option GoErr

/-- `callback.process` when the input value is not a function (part_004):
latch the fixed construction error and register nothing; the reflective
call is unreachable on this binder. -/
def mkNonFunc (σ : Type) : Callback σ :=
  { inputErr := some errNotAFunction
    arguments := {}
    call := fun _ => none }

/-- Result of one dispatch of the produced closure: the returned token
list, the returned error, the final storage, the trace of `Set` calls
performed, and whether the wrapped function was invoked. -/
structure DispatchOut (σ : Type) where
  args : List String
  err : Option GoErr
  state : σ
  evs : List Ev
  invoked : Bool

/-- `callback.callback` (part_004): if a construction error was latched,
return it with the tokens untouched; otherwise parse, and on success
replace the tokens by `arguments.Args()`, invoke the wrapped function and
return its trailing error result. -/
def dispatch {σ : Type} (cb : Callback σ) (_name : String)
    (tokens : List String) (s : σ) : DispatchOut σ :=
  match cb.inputErr with
  | some e => ⟨tokens, some e, s, [], false⟩
  | none =>
    let r := V2.Parse cb.arguments tokens s
    match r.err with
    | none => ⟨V2.Args r.arguments, cb.call r.state, r.state, r.evs, true⟩
    | some e => ⟨tokens, some e, r.state, r.evs, false⟩

/-- C4 (confirmed): a binder built from a non-function value returns the
latched "not a function" error on every dispatch, with the input tokens
returned unchanged, no `Set` call performed, the storage untouched, and
the wrapped value never invoked. -/
theorem nonFunc_dispatch_latched {σ : Type} (name : String)
    (tokens : List String) (s : σ) :
    dispatch (mkNonFunc σ) name tokens s
      = ⟨tokens, some errNotAFunction, s, [], false⟩ := rfl

/-- A named Go type as the binder's reflection sees it: whether the type
itself (its value method set) and its pointer form implement `Value` and
`SliceValue`.  Go's method-set rule makes each pointer flag at least as
permissive as the corresponding value flag; no proof below needs that. -/
structure NamedType where
  name : String
  valueOnVal : Bool
  valueOnPtr : Bool
  sliceOnVal : Bool
  sliceOnPtr : Bool
  deriving DecidableEq, Repr

/-- A parameter type reaching the binder's default branch: a bare
(non-pointer) named type or a pointer to one. -/
inductive RType where
  | named (t : NamedType)
  | ptrTo (t : NamedType)
  deriving DecidableEq, Repr

/-- The two capability interfaces the binder probes for. -/
inductive Capability where
  | value
  | sliceValue
  deriving DecidableEq, Repr

/-- `reflect.Type.Implements` for the two capability interfaces. -/
def implementsCap : RType → Capability → Bool
  | .named t, .value => t.valueOnVal
  | .named t, .sliceValue => t.sliceOnVal
  | .ptrTo t, .value => t.valueOnPtr
  | .ptrTo t, .sliceValue => t.sliceOnPtr

/-- The `%v` rendering of the type, as used in the latched error text. -/
def typeName : RType → String
  | .named t => t.name
  | .ptrTo t => "*" ++ t.name

/-- `callback.tryValue` (part_004): a non-pointer argument type is
retried as its pointer form (that call recurses at most once, because the
pointer form is a pointer — the recursion is unrolled here); a pointer
type is accepted — an instance is allocated and registered — exactly when
it implements the wanted capability. -/
def tryValue : RType → Capability → Bool
  | .named t, c => implementsCap (.ptrTo t) c
  | .ptrTo t, c => implementsCap (.ptrTo t) c

/-- How the default branch of `callback.process` (part_004) classifies a
non-scalar parameter type. -/
inductive Classified where
  | valueArg
  | sliceArg
  | construction (e : GoErr)
  deriving DecidableEq, Repr

/-- The default branch of `callback.process` (part_004): try the `Value`
capability, then `SliceValue`, then latch the construction error naming
the type. -/
def classifyCustom (arg : RType) : Classified :=
  if tryValue arg .value then .valueArg
  else if tryValue arg .sliceValue then .sliceArg
  else .construction
    (.base (typeName arg ++ " must implement either Value or ValueSlice interfaces"))

/-- A custom type implementing `Value` only on its pointer receiver. -/
def ptrOnlyValueType : NamedType :=
  { name := "cli.boolValue", valueOnVal := false, valueOnPtr := true
    sliceOnVal := false, sliceOnPtr := false }

/-- A type implementing neither capability, even as a pointer. -/
def noCapType : NamedType :=
  { name := "time.Time", valueOnVal := false, valueOnPtr := false
    sliceOnVal := false, sliceOnPtr := false }

/-- C7 (amended): a parameter typed as a bare (non-pointer) custom type
whose pointer form implements `Value` is **accepted** at construction —
`tryValue` silently retries the check against the pointer type, allocates
an instance and registers a plain `Value` argument, latching no error at
all; the only construction error this branch can latch is the
"must implement either Value or ValueSlice interfaces" diagnosis, raised
exactly when the pointer form implements neither capability. -/
theorem bare_pointer_receiver_type_promoted :
    (∀ t : NamedType, t.valueOnPtr = true →
      classifyCustom (.named t) = .valueArg)
    ∧ (∀ t : NamedType, t.valueOnPtr = false → t.sliceOnPtr = false →
      classifyCustom (.named t) = .construction
        (.base (t.name ++ " must implement either Value or ValueSlice interfaces"))) := by
  constructor
  · intro t hv
    simp [classifyCustom, tryValue, implementsCap, hv]
  · intro t hv hs
    simp [classifyCustom, tryValue, implementsCap, typeName, hv, hs]

/-- C7 witness: the pointer-receiver-only type is registered as a `Value`
argument; a capability-less type latches the "implements neither"
construction error. -/
theorem bare_pointer_receiver_type_promoted_witness :
    classifyCustom (.named ptrOnlyValueType) = .valueArg
    ∧ classifyCustom (.named noCapType) = .construction
        (.base "time.Time must implement either Value or ValueSlice interfaces") :=
  ⟨bare_pointer_receiver_type_promoted.1 ptrOnlyValueType rfl,
   bare_pointer_receiver_type_promoted.2 noCapType rfl rfl⟩

/-- C7 counterexample: for the concrete bare type implementing `Value`
only on its pointer receiver, classification yields a registered `Value`
argument and is **not** a latched construction error of any
diagnosis — in particular not the claimed "type must be a pointer to a
type implementing Value" condition, which does not exist in this
revision's binder. -/
theorem bare_pointer_receiver_construction_claim_counterexample :
    classifyCustom (.named ptrOnlyValueType) = .valueArg
    ∧ classifyCustom (.named ptrOnlyValueType)
      ≠ .construction (.base (typeName (.named ptrOnlyValueType)
          ++ " argument must be a pointer to a type implementing Value")) := by
  constructor <;> decide

end Cli.CB

namespace Cli.Cmds

/-- Go's byte-wise lexicographic string comparison (`<=` on `string`),
evaluated over the character data. -/
def charsLe : List Char → List Char → Bool
  | [], _ => true
  | _ :: _, [] => false
  | a :: as, b :: bs =>
    if a.val < b.val then true
    else if b.val < a.val then false
    else charsLe as bs

/-- `a <= b` on Go strings. -/
def strLe (a b : String) : Bool := charsLe a.data b.data

/-- The error-handling policy (part_005): terminate, report, or panic. -/
inductive ErrorHandling where
  | exitOnError
  | continueOnError
  | panicOnError
  deriving DecidableEq, Repr

/-- An invocation of a command's bound callback, recorded by command
name. -/
inductive REv where
  | invoked (name : String)
  deriving DecidableEq, Repr

/-- `Command` (part_005): its name, the optional bound `CommandFunc`
`func(name string, args ...string) ([]string, error)`, the child
commands, the error-handling policy, and the named-flag collaborator's
`Parse` — an external black box per the spec, returning the positional
remainder and an error (a command with no registered flags returns
non-flag tokens unchanged).  Usage strings, descriptions and the output
sink play no role in parsing or dispatch and are omitted. -/
inductive Command where
  | mk (name : String)
       (callback : Option (String → List String → List String × Option GoErr))
       (subCommands : List Command)
       (errorHandling : ErrorHandling)
       (flagsParse : List String → List String × Option GoErr)

/-- The command's name. -/
def Command.name : Command → String
  | .mk n _ _ _ _ => n

/-- The command's bound callback, when any. -/
def Command.callback :
    Command → Option (String → List String → List String × Option GoErr)
  | .mk _ cb _ _ _ => cb

/-- The command's children. -/
def Command.subCommands : Command → List Command
  | .mk _ _ subs _ _ => subs

/-- The command's error-handling policy. -/
def Command.errorHandling : Command → ErrorHandling
  | .mk _ _ _ eh _ => eh

/-- The command's flag collaborator. -/
def Command.flagsParse : Command → List String → List String × Option GoErr
  | .mk _ _ _ _ fp => fp

/-- Insertion into a name-sorted child list. -/
def insertByName (c : Command) : List Command → List Command
  | [] => [c]
  | d :: ds => if strLe c.name d.name then c :: d :: ds else d :: insertByName c ds

/-- `subCommands.sort` (subcommands.go) sorts the children by name via
`sort.Sort`; modelled by insertion sort, which agrees with it on every
lookup `get` performs. -/
def sortByName (l : List Command) : List Command :=
  l.foldr insertByName []

/-- `subCommands.get` (subcommands.go): sort the children by name, then
`sort.Search` for the first index whose name is `>= name`; if that index
is in range and its name equals `name`, return it, else report no match.
On the sorted list, `sort.Search`'s answer is the first element
satisfying the predicate. -/
def subGet (cmds : List Command) (name : String) : Option Command :=
  match (sortByName cmds).find? (fun c => strLe name c.name) with
  | some c => if c.name = name then some c else none
  | none => none

/-- Membership is preserved by sorted insertion. -/
theorem mem_insertByName (x c : Command) (l : List Command) :
    x ∈ insertByName c l ↔ x = c ∨ x ∈ l := by
  induction l with
  | nil => simp [insertByName]
  | cons d ds ih =>
    by_cases hle : strLe c.name d.name
    · simp [insertByName, hle]
    · simp [insertByName, hle, ih]
      tauto

/-- Membership is preserved by the sort. -/
theorem mem_sortByName (x : Command) (l : List Command) :
    x ∈ sortByName l ↔ x ∈ l := by
  induction l with
  | nil => simp [sortByName]
  | cons c cs ih =>
    simp only [sortByName, List.foldr_cons] at ih ⊢
    rw [mem_insertByName, ih]
    simp

/-- Exact-name lookup: when no child bears the requested name, `get`
reports no match. -/
theorem subGet_eq_none (cmds : List Command) (name : String)
    (h : ∀ c ∈ cmds, c.name ≠ name) : subGet cmds name = none := by
  unfold subGet
  cases hf : (sortByName cmds).find? (fun c => strLe name c.name) with
  | none => rfl
  | some c =>
    have hc : c ∈ sortByName cmds := List.mem_of_find?_eq_some hf
    rw [mem_sortByName] at hc
    simp [h c hc]

/-- The outcome of `Run`: a normal return of the remaining tokens and an
error, a process exit (`ExitOnError` prints and calls `os.Exit(2)`), a
panic (`PanicOnError`), or exhaustion of the modelling recursion fuel
(the Go recursion is bounded only by the shape of the tree). -/
inductive RunRes where
  | ok (args : List String) (err : Option GoErr)
  | exited
  | halted (e : GoErr)
  | fuelOut
  deriving DecidableEq, Repr

/-- `handleErr` (part_005): a nil error passes through; otherwise
`ContinueOnError` returns the error to the caller, `ExitOnError` prints
it (with usage when it wraps `ErrUsage` — I/O out of scope here) and ends
the process, `PanicOnError` raises it. -/
def handleErr (policy : ErrorHandling) (args : List String) :
    Option GoErr → RunRes
  | none => .ok args none
  | some e =>
    match policy with
    | .continueOnError => .ok args (some e)
    | .exitOnError => .exited
    | .panicOnError => .halted e

/-- `runCallback` (part_005): a command with no bound callback reports
`ErrNoCommandFunc` with the tokens unchanged; otherwise the callback is
invoked with the command's name and the tokens. -/
def runCallback (cmd : Command) (args : List String) :
    List String × Option GoErr × List REv :=
  match cmd.callback with
  | none => (args, some errNoCommandFunc, [])
  | some f =>
    let r := f cmd.name args
    (r.1, r.2, [.invoked cmd.name])

/-- The `%q` rendering of a plain token (none of the tokens used here
need escaping). -/
def quoteQ (t : String) : String := "\"" ++ t ++ "\""

/-- `runSubcommand` (part_005), parameterized by the recursive `Run` used
on the selected child.  With children present: no remaining token is
`ErrRequiredCommand`; an unmatched selector token is `ErrUnknownCommand`
wrapped with the `%q`-quoted name; a matched child is run on the
remaining tokens.  `inl` is a normal `(args, err, trace)` return; `inr`
propagates a child's exit or panic.  The childless branch is unreachable
from `Run`, which guards the call; its `args[0]` would panic in Go on an
empty token list, modelled by the empty-string default. -/
def runSubcommand (runChild : Command → List String → RunRes × List REv)
    (cmd : Command) (args : List String) :
    (List String × Option GoErr × List REv) ⊕ (RunRes × List REv) :=
  if 0 < cmd.subCommands.length then
    match args with
    | [] => .inl (args, some errRequiredCommand, [])
    | t :: ts =>
      match subGet cmd.subCommands t with
      | none => .inl (args, some (.wrap errUnknownCommand (quoteQ t)), [])
      | some child =>
        match runChild child ts with
        | (.ok a e, evs) => .inl (a, e, evs)
        | (r, evs) => .inr (r, evs)
  else .inl (args, some (.wrap errNoCommandFunc (" for " ++ args.headD "")), [])

/-- `Run` (part_005): parse flags (on a flag error, return the original
tokens through `handleErr`); otherwise run the callback; when children
exist and the callback reported success or an error that wraps
`ErrNoCommandFunc`, dispatch into the selected child; finally pass the
resulting error through this command's `handleErr`.  `fuel` bounds the
modelled recursion depth. -/
def Run : Nat → Command → List String → RunRes × List REv
  | 0, _, _ => (.fuelOut, [])
  | fuel + 1, cmd, args =>
    let fp := cmd.flagsParse args
    match fp.2 with
    | some e => (handleErr cmd.errorHandling args (some e), [])
    | none =>
      let rc := runCallback cmd fp.1
      if 0 < cmd.subCommands.length
          ∧ (rc.2.1.isNone || errorsIsOpt rc.2.1 errNoCommandFunc) = true then
        match runSubcommand (Run fuel) cmd rc.1 with
        | .inl (a, e, evs) => (handleErr cmd.errorHandling a e, rc.2.2 ++ evs)
        | .inr (r, evs) => (r, rc.2.2 ++ evs)
      else (handleErr cmd.errorHandling rc.1 rc.2.1, rc.2.2)

end Cli.Cmds

namespace Cli.Cmds

/-- A leaf child named `"c"` whose callback consumes nothing and succeeds. -/
def childC : Command := .mk "c" (some fun _ a => (a, none)) [] .continueOnError (fun a => (a, none))

/-- A leaf child named `"d"` with no callback. -/
def childD : Command := .mk "d" none [] .continueOnError (fun a => (a, none))

/-- A childless, callback-less command under the report policy. -/
def leafNoCallback : Command := .mk "leaf" none [] .continueOnError (fun a => (a, none))

/-- A childless command whose callback always fails with `errParse`. -/
def callbackFails : Command :=
  .mk "boom" (some fun _ a => (a, some errParse)) [] .continueOnError (fun a => (a, none))

/-- A parent whose callback succeeds and which owns the child `"c"`. -/
def parentSelects : Command :=
  .mk "p2" (some fun _ a => (a, none)) [childC] .continueOnError (fun a => (a, none))

/-- A parent whose callback returns the `ErrNoCommandFunc` sentinel as its
own error, and which owns the child `"c"`. -/
def parentNoCF : Command :=
  .mk "p" (some fun _ a => (a, some errNoCommandFunc)) [childC] .continueOnError
    (fun a => (a, none))

/-- A parent with two children and no callback, under the report policy. -/
def twoKids : Command :=
  .mk "root" none [childC, childD] .continueOnError (fun a => (a, none))

/-- C8 (confirmed): for a command with at least one child, dispatch with
no selector token remaining fails with `ErrRequiredCommand`, and dispatch
with a selector token matching no child name (exact-name lookup over the
children) fails with `ErrUnknownCommand` wrapping the quoted name; under
the `ContinueOnError` (report) policy, `Run` on a command with no bound
callback returns exactly these errors to the caller. -/
theorem dispatch_required_and_unknown_command
    (rc : Command → List String → RunRes × List REv) (cmd : Command)
    (h : cmd.subCommands ≠ []) :
    runSubcommand rc cmd [] = .inl ([], some errRequiredCommand, [])
    ∧ (∀ t ts, (∀ c ∈ cmd.subCommands, c.name ≠ t) →
        runSubcommand rc cmd (t :: ts)
          = .inl (t :: ts, some (.wrap errUnknownCommand (quoteQ t)), []))
    ∧ (∀ fuel, cmd.callback = none → cmd.errorHandling = .continueOnError →
        cmd.flagsParse [] = ([], none) →
        Run (fuel + 1) cmd [] = (.ok [] (some errRequiredCommand), []))
    ∧ (∀ fuel t ts, cmd.callback = none → cmd.errorHandling = .continueOnError →
        cmd.flagsParse (t :: ts) = (t :: ts, none) →
        (∀ c ∈ cmd.subCommands, c.name ≠ t) →
        Run (fuel + 1) cmd (t :: ts)
          = (.ok (t :: ts) (some (.wrap errUnknownCommand (quoteQ t))), [])) := by
  have hlen : 0 < cmd.subCommands.length := List.length_pos.mpr h
  have hno : errorsIs errNoCommandFunc errNoCommandFunc = true := by decide
  refine ⟨?_, ?_, ?_, ?_⟩
  · simp [runSubcommand, hlen]
  · intro t ts hnm
    simp [runSubcommand, hlen, subGet_eq_none _ _ hnm]
  · intro fuel hcb heh hfp
    simp [Run, hfp, runCallback, hcb, hlen, errorsIsOpt, hno, runSubcommand,
      handleErr, heh]
  · intro fuel t ts hcb heh hfp hnm
    simp [Run, hfp, runCallback, hcb, hlen, errorsIsOpt, hno, runSubcommand,
      subGet_eq_none _ _ hnm, handleErr, heh]

/-- C8 witness: a two-child command under the report policy fails with
`ErrRequiredCommand` on no tokens and with the wrapped `ErrUnknownCommand`
on the unmatched token `"zz"`. -/
theorem dispatch_required_and_unknown_command_witness :
    Run 1 twoKids [] = (.ok [] (some errRequiredCommand), [])
    ∧ Run 1 twoKids ["zz"]
      = (.ok ["zz"] (some (.wrap errUnknownCommand (quoteQ "zz"))), []) := by
  have hnm : ∀ c ∈ twoKids.subCommands, c.name ≠ "zz" := by
    intro c hc
    simp [twoKids, Command.subCommands] at hc
    rcases hc with h | h <;> subst h <;> decide
  have h := dispatch_required_and_unknown_command (Run 0) twoKids
    (by simp [twoKids, Command.subCommands])
  exact ⟨h.2.2.1 0 rfl rfl rfl, h.2.2.2 0 "zz" [] rfl rfl rfl hnm⟩

/-- C5 (amended): the `Run` contract of part_005 under the
`ContinueOnError` policy with a transparent flag collaborator:
(1) with no callback bound and no children, `Run` fails with
`ErrNoCommandFunc`; (2) a bound callback's non-nil error that does not
wrap `ErrNoCommandFunc` is propagated immediately and no child is
dispatched; (3) when the callback succeeds and the exact-name lookup of
the next returned token selects a child, `Run` recurses into that child's
`Run` on the remaining tokens, passing a normal child result through this
command's `handleErr` and propagating a child exit or panic unchanged. -/
theorem run_callback_contract :
    (∀ fuel (cmd : Command) args, cmd.callback = none → cmd.subCommands = [] →
        cmd.errorHandling = .continueOnError → cmd.flagsParse args = (args, none) →
        Run (fuel + 1) cmd args = (.ok args (some errNoCommandFunc), []))
    ∧ (∀ fuel (cmd : Command) args f a e, cmd.callback = some f →
        cmd.errorHandling = .continueOnError → cmd.flagsParse args = (args, none) →
        f cmd.name args = (a, some e) → errorsIs e errNoCommandFunc = false →
        Run (fuel + 1) cmd args = (.ok a (some e), [.invoked cmd.name]))
    ∧ (∀ fuel (cmd : Command) args f t ts child, cmd.callback = some f →
        cmd.flagsParse args = (args, none) → f cmd.name args = (t :: ts, none) →
        subGet cmd.subCommands t = some child → 0 < cmd.subCommands.length →
        Run (fuel + 1) cmd args =
          (match Run fuel child ts with
           | (.ok a e, evs) => (handleErr cmd.errorHandling a e, .invoked cmd.name :: evs)
           | (r, evs) => (r, .invoked cmd.name :: evs))) := by
  refine ⟨?_, ?_, ?_⟩
  · intro fuel cmd args hcb hsub heh hfp
    simp [Run, hfp, runCallback, hcb, hsub, handleErr, heh]
  · intro fuel cmd args f a e hcb heh hfp hf hnno
    simp [Run, hfp, runCallback, hcb, hf, errorsIsOpt, hnno, handleErr, heh]
  · intro fuel cmd args f t ts child hcb hfp hf hget hlen
    rcases hrun : Run fuel child ts with ⟨r, evs⟩
    cases r with
    | ok a e =>
      simp [Run, hfp, runCallback, hcb, hf, hlen, errorsIsOpt, runSubcommand,
        hget, hrun]
    | exited =>
      simp [Run, hfp, runCallback, hcb, hf, hlen, errorsIsOpt, runSubcommand,
        hget, hrun]
    | halted e =>
      simp [Run, hfp, runCallback, hcb, hf, hlen, errorsIsOpt, runSubcommand,
        hget, hrun]
    | fuelOut =>
      simp [Run, hfp, runCallback, hcb, hf, hlen, errorsIsOpt, runSubcommand,
        hget, hrun]

/-- C5 witness: the three clauses at concrete commands — a bare leaf
fails with `ErrNoCommandFunc`; a failing callback's `errParse` is
propagated with no child dispatched; a succeeding callback hands the
remaining tokens to the selected child `"c"`, whose own callback runs. -/
theorem run_callback_contract_witness :
    Run 1 leafNoCallback [] = (.ok [] (some errNoCommandFunc), [])
    ∧ Run 1 callbackFails ["x"] = (.ok ["x"] (some errParse), [.invoked "boom"])
    ∧ Run 2 parentSelects ["c"] = (.ok [] none, [.invoked "p2", .invoked "c"]) := by
  refine ⟨run_callback_contract.1 0 leafNoCallback [] rfl rfl rfl rfl, ?_, ?_⟩
  · exact run_callback_contract.2.1 0 callbackFails ["x"] _ ["x"] errParse
      rfl rfl rfl rfl (by decide)
  · have h := run_callback_contract.2.2 1 parentSelects ["c"] _ "c" [] childC
      rfl rfl rfl rfl (by decide)
    exact h.trans (by decide)

/-- C5 counterexample: the parent's bound callback returns the non-nil
error `ErrNoCommandFunc`, yet `Run` does not propagate it — it dispatches
into the selected child `"c"`, invokes the child's callback, and returns
the child's nil error — refuting "that error is propagated immediately
and a selected child's Run is not invoked" for this non-nil error. -/
theorem run_error_propagation_claim_counterexample :
    (Run 2 parentNoCF ["c"]).1 = .ok [] none
    ∧ REv.invoked "c" ∈ (Run 2 parentNoCF ["c"]).2 := by
  constructor <;> decide

end Cli.Cmds
